import Mathlib

/-!
Shallow embedding of the `delayed_clear` Python library
(src/src/delayed_clear/__init__.py) and proofs about it.

The library has two classes:

* `Counter` : an integer counter paired with an asyncio `Event` named
  `_zero` that is set exactly when the counter is at 0.
* `DelayedClear` : a slot holding an optional value (`hasattr _value`),
  an asyncio `Event` named `_value_set`, a `Counter` named `_use_counter`
  and a timestamp `_last_release`.

Modelling conventions:
* Python integers are `Int` (they are unbounded and could in principle go
  negative, so the no-negative property of the counter is a real theorem,
  not a typing artifact).
* An asyncio `Event` is a `Bool` (`true` = set).
* A Python value of the wrapped type, which may be the Python `None`, is
  an `Option V` (`none` = Python `None`).  The presence of the `_value`
  attribute is a further `Option` layer, so the slot field is
  `Option (Option V)`.
* Timestamps from `datetime.now()` are `Nat` values passed in by the
  caller at each point where the source reads the clock.
* A `with` body or a factory call either completes normally or raises;
  this is an `Outcome` (for bodies) or an `Except Unit` (for factories).
-/

namespace DelayedClearSpec

/-- Outcome of running a user-supplied scope body: it either completes
normally or raises an exception that propagates out of the scope. -/
inductive Outcome where
  | normal
  | raised
deriving DecidableEq, Repr

/-- State of the Python class `Counter`: the `_counter` integer and the
`_zero` event (`true` = event set). -/
structure Counter where
  counter : Int
  zero : Bool
deriving DecidableEq, Repr

/-- Embedding of `Counter.__init__`: counter 0, `_zero` event set. -/
def Counter.init : Counter := { counter := 0, zero := true }

/-- Embedding of `Counter.increment`: clears the `_zero` event, then adds
1 to the counter. -/
def Counter.increment (c : Counter) : Counter :=
  { counter := c.counter + 1, zero := false }

/-- Embedding of `Counter.decrement`: if the counter is positive it is
decremented; afterwards, if the counter is 0 the `_zero` event is set
(and otherwise the event is left untouched). -/
def Counter.decrement (c : Counter) : Counter :=
  let n : Int := if 0 < c.counter then c.counter - 1 else c.counter
  { counter := n, zero := if n = 0 then true else c.zero }

/-- Embedding of `Counter.clear`: counter to 0, `_zero` event set. -/
def Counter.clear (_ : Counter) : Counter := { counter := 0, zero := true }

/-- Embedding of the `Counter.bump` context manager applied to a scope
body with the given outcome.  The source generator is
`self.increment(); yield; self.decrement()` with no try/finally, so when
the body raises, the exception is thrown into the generator at the
`yield` and the `decrement()` line after the `yield` never runs. -/
def Counter.bump (c : Counter) (body : Outcome) : Counter :=
  match body with
  | Outcome.normal => c.increment.decrement
  | Outcome.raised => c.increment

/-- Embedding of `Counter.is_zero`: whether `_counter == 0`. -/
def Counter.is_zero (c : Counter) : Bool := c.counter == 0

/-- One call on a `Counter`: `increment()`, `decrement()` or `clear()`. -/
inductive CounterOp where
  | inc
  | dec
  | clr
deriving DecidableEq, Repr

/-- Apply one call to a `Counter` state. -/
def Counter.apply (c : Counter) : CounterOp → Counter
  | CounterOp.inc => c.increment
  | CounterOp.dec => c.decrement
  | CounterOp.clr => c.clear

/-- Run a sequence of calls on a freshly constructed `Counter`. -/
def Counter.run (ops : List CounterOp) : Counter :=
  ops.foldl Counter.apply Counter.init

/-- Invariant of `Counter`: the counter is non-negative and the `_zero`
event is set exactly when the counter is 0. -/
def CounterInv (c : Counter) : Prop :=
  0 ≤ c.counter ∧ (c.zero = true ↔ c.counter = 0)

lemma counterInv_init : CounterInv Counter.init := by
  constructor
  · exact le_refl 0
  · simp [Counter.init]

lemma counterInv_increment (c : Counter) (h : CounterInv c) :
    CounterInv c.increment := by
  rcases h with ⟨h0, _⟩
  constructor
  · simp [Counter.increment]; omega
  · simp [Counter.increment]; omega

lemma counterInv_decrement (c : Counter) (h : CounterInv c) :
    CounterInv c.decrement := by
  rcases h with ⟨h0, hz⟩
  unfold Counter.decrement CounterInv
  by_cases hc : 0 < c.counter
  · simp only [hc, if_true]
    constructor
    · omega
    · by_cases hn : c.counter - 1 = 0
      · simp [hn]
      · simp only [hn, if_false]
        constructor
        · intro hzt
          exact absurd (hz.mp hzt) (by omega)
        · intro hzt
          exact hzt.elim
  · have hc0 : c.counter = 0 := by omega
    simp [hc, hc0]

lemma counterInv_clear (c : Counter) (_ : CounterInv c) :
    CounterInv c.clear := by
  constructor
  · exact le_refl 0
  · simp [Counter.clear]

lemma counterInv_apply (c : Counter) (op : CounterOp) (h : CounterInv c) :
    CounterInv (c.apply op) := by
  cases op with
  | inc => exact counterInv_increment c h
  | dec => exact counterInv_decrement c h
  | clr => exact counterInv_clear c h

lemma counterInv_foldl (ops : List CounterOp) (c : Counter)
    (h : CounterInv c) : CounterInv (ops.foldl Counter.apply c) := by
  induction ops generalizing c with
  | nil => exact h
  | cons op rest ih => exact ih _ (counterInv_apply c op h)

lemma counterInv_run (ops : List CounterOp) : CounterInv (Counter.run ops) :=
  counterInv_foldl ops Counter.init counterInv_init

/-- State of the Python class `DelayedClear`.  `value_set` is the
`_value_set` event; `value` is `none` when the instance has no `_value`
attribute and `some a` when `_value` holds the Python value `a : Option V`
(where `none : Option V` is the Python `None`); `use_counter` is the
`_use_counter` Counter; `last_release` is the `_last_release` timestamp. -/
structure DelayedClear (V : Type) where
  value_set : Bool
  value : Option (Option V)
  use_counter : Counter
  last_release : Nat
deriving DecidableEq

/-- Embedding of `DelayedClear.set`: unconditionally stores the given
Python value in `_value` and sets the `_value_set` event.  Touches nothing
else. -/
def DelayedClear.set {V : Type} (s : DelayedClear V) (a : Option V) :
    DelayedClear V :=
  { s with value := some a, value_set := true }

/-- Embedding of `DelayedClear.__init__` called with Python argument `a`
(the default, passing no argument, is `a = none`, i.e. Python `None`) at
clock time `now`: the `_value_set` event starts unset, `self.set(value)`
runs only when the argument `is not None`, the use counter is fresh and
`_last_release` is the construction time. -/
def DelayedClear.init {V : Type} (a : Option V) (now : Nat) :
    DelayedClear V :=
  let s : DelayedClear V :=
    { value_set := false, value := none, use_counter := Counter.init,
      last_release := now }
  match a with
  | some _ => s.set a
  | none => s

/-- Result of one `DelayedClear.get` context-manager use: the state after
the scope exits, the Python value that was yielded to the body (`none` if
the factory raised before the yield), whether an exception propagated out
of the call, and how many times the factory was invoked. -/
structure GetResult (V : Type) where
  state : DelayedClear V
  yielded : Option (Option V)
  raised : Bool
  factory_calls : Nat
deriving DecidableEq

/-- The part of `DelayedClear.get` from the `try` on, run when `_value` is
present: `with self._use_counter.bump(): yield self._value`, then the
`finally` clause sets `_last_release` to the current clock value if the
counter is at zero.  The `finally` runs whether the body completed or
raised; `bump` skips its decrement when the body raised (no try/finally in
the `bump` generator). -/
def DelayedClear.get_scope {V : Type} (s : DelayedClear V) (body : Outcome)
    (now : Nat) : GetResult V :=
  let s1 : DelayedClear V := { s with use_counter := s.use_counter.bump body }
  let s2 : DelayedClear V :=
    if s1.use_counter.is_zero then { s1 with last_release := now } else s1
  { state := s2, yielded := s.value, raised := body == Outcome.raised,
    factory_calls := 0 }

/-- Embedding of the `DelayedClear.get` context manager: if no `_value`
attribute is present, `or_set()` is called; if it raises, the exception
propagates before the `try` block is entered (so no counter change and no
`finally`); otherwise its result is stored via `set` and the scope runs.
If a value is present the factory is never invoked. -/
def DelayedClear.get {V : Type} (s : DelayedClear V)
    (or_set : Except Unit (Option V)) (body : Outcome) (now : Nat) :
    GetResult V :=
  match s.value with
  | none =>
    match or_set with
    | Except.error _ =>
      { state := s, yielded := none, raised := true, factory_calls := 1 }
    | Except.ok a =>
      let r := (s.set a).get_scope body now
      { r with factory_calls := 1 }
  | some _ => s.get_scope body now

/-- Embedding of `DelayedClear.unused`: delegates to the use counter. -/
def DelayedClear.unused {V : Type} (s : DelayedClear V) : Bool :=
  s.use_counter.is_zero

/-- Embedding of `DelayedClear.clear`: if `unused()`, delete `_value` (when
present) and clear the `_value_set` event, returning `True`; otherwise do
nothing and return `False`. -/
def DelayedClear.clear {V : Type} (s : DelayedClear V) :
    DelayedClear V × Bool :=
  if s.unused then
    match s.value with
    | some _ => ({ s with value := none, value_set := false }, true)
    | none => (s, true)
  else
    (s, false)

/-- One completed operation on a `DelayedClear` instance: a full `get`
context-manager use (with its factory, body outcome and exit clock time),
a `set`, or a `clear`. -/
inductive DCOp (V : Type) where
  | getOp (f : Except Unit (Option V)) (b : Outcome) (t : Nat)
  | setOp (a : Option V)
  | clearOp

/-- Apply one operation to a `DelayedClear` state. -/
def DelayedClear.apply {V : Type} (s : DelayedClear V) : DCOp V → DelayedClear V
  | DCOp.getOp f b t => (s.get f b t).state
  | DCOp.setOp a => s.set a
  | DCOp.clearOp => (s.clear).1

/-- Run a sequence of operations on a freshly constructed instance. -/
def DelayedClear.run {V : Type} (a : Option V) (t0 : Nat)
    (ops : List (DCOp V)) : DelayedClear V :=
  ops.foldl DelayedClear.apply (DelayedClear.init a t0)

/-- Invariant of `DelayedClear`: the `_value_set` event is set exactly when
the `_value` attribute is present. -/
def ValueInv {V : Type} (s : DelayedClear V) : Prop :=
  s.value_set = (s.value).isSome

lemma valueInv_init {V : Type} (a : Option V) (t0 : Nat) :
    ValueInv (DelayedClear.init a t0) := by
  cases a with
  | none => rfl
  | some v => rfl

lemma valueInv_set {V : Type} (s : DelayedClear V) (a : Option V) :
    ValueInv (s.set a) := rfl

lemma get_scope_value {V : Type} (s : DelayedClear V) (b : Outcome)
    (t : Nat) : (s.get_scope b t).state.value = s.value := by
  unfold DelayedClear.get_scope
  dsimp only
  split <;> rfl

lemma get_scope_value_set {V : Type} (s : DelayedClear V) (b : Outcome)
    (t : Nat) : (s.get_scope b t).state.value_set = s.value_set := by
  unfold DelayedClear.get_scope
  dsimp only
  split <;> rfl

lemma get_scope_yielded {V : Type} (s : DelayedClear V) (b : Outcome)
    (t : Nat) : (s.get_scope b t).yielded = s.value := rfl

lemma get_scope_counter {V : Type} (s : DelayedClear V) (b : Outcome)
    (t : Nat) :
    (s.get_scope b t).state.use_counter = s.use_counter.bump b := by
  unfold DelayedClear.get_scope
  dsimp only
  split <;> rfl

lemma valueInv_get_scope {V : Type} (s : DelayedClear V) (b : Outcome)
    (t : Nat) (h : ValueInv s) : ValueInv (s.get_scope b t).state := by
  unfold ValueInv
  rw [get_scope_value, get_scope_value_set]
  exact h

lemma valueInv_get {V : Type} (s : DelayedClear V)
    (f : Except Unit (Option V)) (b : Outcome) (t : Nat) (h : ValueInv s) :
    ValueInv (s.get f b t).state := by
  unfold DelayedClear.get
  cases hv : s.value with
  | none =>
    cases f with
    | error e => exact h
    | ok a => exact valueInv_get_scope (s.set a) b t (valueInv_set s a)
  | some a => exact valueInv_get_scope s b t h

lemma valueInv_clear {V : Type} (s : DelayedClear V) (h : ValueInv s) :
    ValueInv (s.clear).1 := by
  unfold DelayedClear.clear
  by_cases hu : s.unused
  · simp only [hu, if_true]
    cases hv : s.value with
    | none => exact h
    | some a => rfl
  · simp only [hu, if_false]
    exact h

lemma valueInv_apply {V : Type} (s : DelayedClear V) (op : DCOp V)
    (h : ValueInv s) : ValueInv (s.apply op) := by
  cases op with
  | getOp f b t => exact valueInv_get s f b t h
  | setOp a => exact valueInv_set s a
  | clearOp => exact valueInv_clear s h

lemma valueInv_foldl {V : Type} (ops : List (DCOp V)) (s : DelayedClear V)
    (h : ValueInv s) : ValueInv (ops.foldl DelayedClear.apply s) := by
  induction ops generalizing s with
  | nil => exact h
  | cons op rest ih => exact ih _ (valueInv_apply s op h)

lemma valueInv_run {V : Type} (a : Option V) (t0 : Nat)
    (ops : List (DCOp V)) : ValueInv (DelayedClear.run a t0 ops) :=
  valueInv_foldl ops (DelayedClear.init a t0) (valueInv_init a t0)

lemma get_scope_factory_calls {V : Type} (s : DelayedClear V) (b : Outcome)
    (t : Nat) : (s.get_scope b t).factory_calls = 0 := rfl

lemma get_of_present {V : Type} (s : DelayedClear V) (a : Option V)
    (f : Except Unit (Option V)) (b : Outcome) (t : Nat)
    (h : s.value = some a) : s.get f b t = s.get_scope b t := by
  unfold DelayedClear.get
  rw [h]

lemma get_of_absent_ok {V : Type} (s : DelayedClear V) (a : Option V)
    (b : Outcome) (t : Nat) (h : s.value = none) :
    s.get (Except.ok a) b t =
      { (s.set a).get_scope b t with factory_calls := 1 } := by
  unfold DelayedClear.get
  rw [h]

/-- A concrete slot over `V = Nat` holding the Python value 5 with an idle
use counter, as produced by constructing with argument 5 at time 0 and
then completing one full `get`/release cycle would leave it. -/
def exPresent : DelayedClear Nat :=
  { value_set := true, value := some (some 5), use_counter := Counter.init,
    last_release := 0 }

/-- A concrete slot over `V = Nat` holding the Python value 5 while one
`get` scope is open (use counter at 1, zero event unset). -/
def exBusy : DelayedClear Nat :=
  { value_set := true, value := some (some 5),
    use_counter := { counter := 1, zero := false }, last_release := 0 }

/-- A concrete freshly constructed slot over `V = Nat` with no value. -/
def exAbsent : DelayedClear Nat := DelayedClear.init none 0

/-- C1: the claim states that for every scope body executed under
`Counter.bump`, including a body that raises an exception, `decrement()`
is called on scope exit, so the count after exit equals the count before
entry.  The code violates this: the `bump` generator is
`increment(); yield; decrement()` with no try/finally, so when the body
raises, the exception is thrown into the generator at the `yield` and the
decrement never runs.  This theorem evaluates the code at the failing
input: from a fresh counter (count 0), a `bump` whose body raises leaves
the count at 1 (and the zero event unset), while a `bump` whose body
completes normally does return the count to 0. -/
theorem C1_bump_raised_leaks_count :
    Counter.init.counter = 0 ∧
    (Counter.init.bump Outcome.raised).counter = 1 ∧
    (Counter.init.bump Outcome.raised).zero = false ∧
    (Counter.init.bump Outcome.normal).counter = 0 := by
  decide

/-- C2: if the factory raises during `DelayedClear.get` on a slot with no
value, the exception propagates to the caller (`raised = true`), nothing
is yielded, and the state is completely unchanged: the slot stays absent,
and in particular the use counter was never incremented for the attempt
and the value-present event is as before. -/
theorem C2_factory_failure_leaves_slot_absent {V : Type}
    (s : DelayedClear V) (b : Outcome) (t : Nat) (h : s.value = none) :
    (s.get (Except.error ()) b t).raised = true ∧
    (s.get (Except.error ()) b t).state = s ∧
    (s.get (Except.error ()) b t).state.value = none ∧
    (s.get (Except.error ()) b t).state.use_counter = s.use_counter ∧
    (s.get (Except.error ()) b t).yielded = none := by
  unfold DelayedClear.get
  rw [h]
  exact ⟨rfl, rfl, h, rfl, rfl⟩

/-- Witness for C2 at a concrete input: a freshly constructed empty slot,
a factory that raises, a normally-completing body and clock time 7. -/
theorem C2_factory_failure_witness :
    exAbsent.value = none ∧
    (exAbsent.get (Except.error ()) Outcome.normal 7).raised = true ∧
    (exAbsent.get (Except.error ()) Outcome.normal 7).state = exAbsent := by
  refine ⟨rfl, ?_, ?_⟩
  · exact (C2_factory_failure_leaves_slot_absent exAbsent Outcome.normal 7
      rfl).1
  · exact (C2_factory_failure_leaves_slot_absent exAbsent Outcome.normal 7
      rfl).2.1

/-- C3: when the use counter is positive (`unused()` is false), `clear()`
returns false and performs no mutation at all: the whole state, and in
particular the stored value, the value-present event, the use counter and
the last-release timestamp, are unchanged. -/
theorem C3_clear_while_in_use_no_mutation {V : Type} (s : DelayedClear V)
    (h : s.unused = false) :
    (s.clear).2 = false ∧ (s.clear).1 = s ∧
    (s.clear).1.value = s.value ∧ (s.clear).1.value_set = s.value_set ∧
    (s.clear).1.use_counter = s.use_counter ∧
    (s.clear).1.last_release = s.last_release := by
  unfold DelayedClear.clear
  rw [h]
  exact ⟨rfl, rfl, rfl, rfl, rfl, rfl⟩

/-- Witness for C3 at a concrete input: a slot holding 5 with one open
scope. -/
theorem C3_clear_while_in_use_witness :
    exBusy.unused = false ∧
    (exBusy.clear).2 = false ∧ (exBusy.clear).1 = exBusy :=
  ⟨rfl, (C3_clear_while_in_use_no_mutation exBusy rfl).1,
    (C3_clear_while_in_use_no_mutation exBusy rfl).2.1⟩

/-- C4: when the use counter is zero (`unused()` is true), `clear()`
returns true and leaves the slot absent with the value-present event
unset, whether or not a value was present beforehand.  The hypothesis
`hinv` is the reachability invariant (value-present event set exactly when
a value is stored), proved to hold after every operation sequence by
`valueInv_run`; it is only needed for the already-absent case, where the
code leaves the event untouched. -/
theorem C4_clear_unused_idempotent {V : Type} (s : DelayedClear V)
    (hu : s.unused = true) (hinv : s.value_set = (s.value).isSome) :
    (s.clear).2 = true ∧ (s.clear).1.value = none ∧
    (s.clear).1.value_set = false := by
  rcases hv : s.value with _ | a
  · have hvs : s.value_set = false := by rw [hinv, hv]; rfl
    simp [DelayedClear.clear, hu, hv, hvs]
  · simp [DelayedClear.clear, hu, hv]

/-- Witness for C4 at a concrete input: an idle slot holding 5. -/
theorem C4_clear_unused_witness :
    exPresent.unused = true ∧
    exPresent.value_set = (exPresent.value).isSome ∧
    ((exPresent.clear).2 = true ∧ (exPresent.clear).1.value = none ∧
      (exPresent.clear).1.value_set = false) :=
  ⟨rfl, rfl, C4_clear_unused_idempotent exPresent rfl rfl⟩

/-- C5: over every sequence of `increment()`, `decrement()` and `clear()`
calls on a freshly constructed `Counter`, the count never becomes
negative; in particular `decrement()` on a counter whose count is 0
leaves the count at 0 (with the zero event set) and raises no error (it
is a total function in the embedding). -/
theorem C5_counter_never_negative :
    (∀ ops : List CounterOp, 0 ≤ (Counter.run ops).counter) ∧
    (∀ c : Counter, c.counter = 0 →
      c.decrement.counter = 0 ∧ c.decrement.zero = true) := by
  constructor
  · intro ops
    exact (counterInv_run ops).1
  · intro c h
    constructor
    · simp [Counter.decrement, h]
    · simp [Counter.decrement, h]

/-- Witness for C5 at concrete inputs: a call sequence that over-releases
twice, and a decrement of a fresh (count 0) counter. -/
theorem C5_counter_never_negative_witness :
    0 ≤ (Counter.run [CounterOp.dec, CounterOp.inc, CounterOp.dec,
      CounterOp.dec]).counter ∧
    Counter.init.counter = 0 ∧
    Counter.init.decrement.counter = 0 ∧
    Counter.init.decrement.zero = true := by
  refine ⟨C5_counter_never_negative.1 _, rfl, ?_, ?_⟩
  · exact (C5_counter_never_negative.2 Counter.init rfl).1
  · exact (C5_counter_never_negative.2 Counter.init rfl).2

/-- C6: after construction and after every sequence of completed
`Counter` operations, the `_zero` event is set exactly when the count is
0, and therefore `is_zero()` (which reads the count) agrees with the
event at every observation point between operations. -/
theorem C6_zero_event_iff_zero_count (ops : List CounterOp) :
    ((Counter.run ops).zero = true ↔ (Counter.run ops).counter = 0) ∧
    (Counter.run ops).is_zero = (Counter.run ops).zero := by
  have h := counterInv_run ops
  refine ⟨h.2, ?_⟩
  unfold Counter.is_zero
  cases hb : (Counter.run ops).zero with
  | false =>
    have hne : ¬(Counter.run ops).counter = 0 := by
      intro hc
      have hzt := h.2.mpr hc
      rw [hb] at hzt
      exact Bool.false_ne_true hzt
    simp [hne]
  | true =>
    have hc := h.2.mp hb
    simp [hc]

/-- C7: after construction with any argument and after every sequence of
completed `DelayedClear` operations (`get`, `set`, `clear`), the
`_value_set` event is set exactly when a value is stored in the slot. -/
theorem C7_value_event_iff_value_present {V : Type} (a : Option V)
    (t0 : Nat) (ops : List (DCOp V)) :
    (DelayedClear.run a t0 ops).value_set =
      ((DelayedClear.run a t0 ops).value).isSome :=
  valueInv_run a t0 ops

/-- C8: when `get` is called with a value already present, the factory is
not invoked (the result does not depend on it and the invocation count is
0) and the stored value is yielded unchanged; when called with the value
absent and a returning factory, the factory is invoked exactly once and
its result is stored via `set` (value stored, value-present event set)
and yielded to the caller. -/
theorem C8_get_factory_discipline {V : Type} (s : DelayedClear V)
    (b : Outcome) (t : Nat) :
    (∀ a, s.value = some a →
      (∀ f g, s.get f b t = s.get g b t) ∧
      (∀ f, (s.get f b t).factory_calls = 0 ∧
        (s.get f b t).yielded = some a ∧
        (s.get f b t).state.value = some a)) ∧
    (s.value = none → ∀ a,
      (s.get (Except.ok a) b t).factory_calls = 1 ∧
      (s.get (Except.ok a) b t).yielded = some a ∧
      (s.get (Except.ok a) b t).state.value = some a ∧
      (s.get (Except.ok a) b t).state.value_set = true) := by
  constructor
  · intro a h
    constructor
    · intro f g
      rw [get_of_present s a f b t h, get_of_present s a g b t h]
    · intro f
      rw [get_of_present s a f b t h]
      refine ⟨get_scope_factory_calls s b t, ?_, ?_⟩
      · rw [get_scope_yielded, h]
      · rw [get_scope_value, h]
  · intro h a
    rw [get_of_absent_ok s a b t h]
    refine ⟨rfl, ?_, ?_, ?_⟩
    · show ((s.set a).get_scope b t).yielded = some a
      rw [get_scope_yielded]
      rfl
    · show ((s.set a).get_scope b t).state.value = some a
      rw [get_scope_value]
      rfl
    · show ((s.set a).get_scope b t).state.value_set = true
      rw [get_scope_value_set]
      rfl

/-- Witness for C8 at concrete inputs: a present slot (two different
factories give the same result, none is invoked, the stored 5 is yielded)
and an absent slot (the factory result 9 is stored and yielded with one
invocation). -/
theorem C8_get_factory_witness :
    exPresent.value = some (some 5) ∧
    exPresent.get (Except.ok (some 9)) Outcome.normal 3 =
      exPresent.get (Except.error ()) Outcome.normal 3 ∧
    (exPresent.get (Except.ok (some 9)) Outcome.normal 3).factory_calls
      = 0 ∧
    (exPresent.get (Except.ok (some 9)) Outcome.normal 3).yielded =
      some (some 5) ∧
    exAbsent.value = none ∧
    (exAbsent.get (Except.ok (some 9)) Outcome.normal 3).factory_calls
      = 1 ∧
    (exAbsent.get (Except.ok (some 9)) Outcome.normal 3).state.value =
      some (some 9) := by
  have hp := (C8_get_factory_discipline exPresent Outcome.normal 3).1
    (some 5) rfl
  have ha := (C8_get_factory_discipline exAbsent Outcome.normal 3).2
    rfl (some 9)
  exact ⟨rfl, hp.1 _ _, (hp.2 _).1, (hp.2 _).2.1, rfl, ha.1, ha.2.2.1⟩

/-- C9: for every slot state and every argument, `set` stores the value
(overwriting whatever was there) and sets the value-present event, while
leaving the use counter, and hence its count and zero event, and also the
last-release timestamp, unchanged. -/
theorem C9_set_stores_and_frames {V : Type} (s : DelayedClear V)
    (a : Option V) :
    (s.set a).value = some a ∧ (s.set a).value_set = true ∧
    (s.set a).use_counter = s.use_counter ∧
    (s.set a).use_counter.counter = s.use_counter.counter ∧
    (s.set a).use_counter.zero = s.use_counter.zero ∧
    (s.set a).last_release = s.last_release :=
  ⟨rfl, rfl, rfl, rfl, rfl, rfl⟩

/-- C10: constructing `DelayedClear` with the Python argument `None`
(which is also the default when no argument is passed, so the two are the
same call) leaves the slot absent with the value-present event unset,
because `__init__` only calls `set` when the argument `is not None`; yet
a later `set(None)` stores the Python `None` itself, making the slot
present (value-present event set) with stored value `None`. -/
theorem C10_init_none_absent_set_none_present {V : Type} (t0 : Nat) :
    ((DelayedClear.init (none : Option V) t0).value = none ∧
      (DelayedClear.init (none : Option V) t0).value_set = false) ∧
    (∀ s : DelayedClear V,
      (s.set none).value = some (none : Option V) ∧
      (s.set none).value_set = true) :=
  ⟨⟨rfl, rfl⟩, fun _ => ⟨rfl, rfl⟩⟩

end DelayedClearSpec
